import Mathlib

/-!
# Background-removal pipeline: shallow embedding

Shallow embedding of the "smart" background-removal pipeline of the
repository (the `BackgroundRemover` component): border background-color
sampling (`getBackgroundColors`), red-channel Sobel edge detection
(`detectEdges`), alpha classification, min-based feathering, and alpha
compositing (`removeBackground`).

Conventions of the embedding:
* A raster is a width, a height and a pixel function `(x, y) ↦ (r,g,b,a)`;
  the source's flat `data` array at `(y*width+x)*4 + channel` corresponds to
  `pix x y` under the row-major invariant.
* All strict comparisons of a Euclidean length `Math.sqrt s` against a
  non-negative threshold `t` are embedded by the equivalent integer
  comparison of squares (`Real.sqrt s < t ↔ s < t^2` for `0 < t`, proved
  below as `colorDistance_lt_iff` / `sobelMagnitude_gt_iff`), so every
  definition stays computable.
* `Math.floor (255 * (1 - Math.sqrt dd / R))` is embedded operation by
  operation with IEEE-754 binary64 semantics (`featherCand`): correctly
  rounded square root, division, subtraction and multiplication in
  `2^-58` fixed point, then the exact floor.  The exact real floor would
  NOT be faithful: at `dd = 16`, `R = 5` the doubles give 50 where the
  real floor is 51 (`featherCand_fp_divergence` below).
-/

/-- An RGBA pixel; channel values are the `Uint8ClampedArray` bytes. -/
structure RGBA where
  r : Nat
  g : Nat
  b : Nat
  a : Nat
deriving DecidableEq, Repr

/-- An RGB triple, as returned by `getBackgroundColors`. -/
structure RGB where
  r : Nat
  g : Nat
  b : Nat
deriving DecidableEq, Repr

/-- A decoded image: `width`, `height`, and pixel lookup. Models the
`ImageData` (`data`, `width`, `height`) triple; `pix x y` is the RGBA
value at `data[(y*width+x)*4 .. +3]`. -/
structure Raster where
  width : Nat
  height : Nat
  pix : Nat → Nat → RGBA

/-- The three user-tunable parameters (`ProcessingSettings` in the source). -/
structure ProcessingSettings where
  colorTolerance : Nat
  edgeDetection : Nat
  feathering : Nat
deriving DecidableEq, Repr

/-- The squared Euclidean RGB distance
`(r1-r2)^2 + (g1-g2)^2 + (b1-b2)^2`.  The source's `colorDistance` is its
real square root; every use in the source compares the root against a
non-negative threshold, which is equivalent to comparing this square
against the threshold's square. -/
def colorDistanceSq (r1 g1 b1 r2 g2 b2 : Nat) : ℤ :=
  ((r1 : ℤ) - r2) ^ 2 + ((g1 : ℤ) - g2) ^ 2 + ((b1 : ℤ) - b2) ^ 2

/-- One accumulated background color sample: a color and its count
(`{r, g, b, count}` in `getBackgroundColors`). -/
structure ColorSample where
  r : Nat
  g : Nat
  b : Nat
  count : Nat
deriving DecidableEq, Repr

/-- The `x` (resp. `y`) values visited by a `for (v = 0; v < n; v += 5)`
loop: the multiples of 5 below `n`, in increasing order. -/
def sampleOffsets (n : Nat) : List Nat :=
  (List.range n).filter (fun v => v % 5 == 0)

/-- The border sample positions of `getBackgroundColors`, in push order:
for each sampled `x`, `(x, 0)` and `(x, height-1)`; then for each sampled
`y`, `(0, y)` and `(width-1, y)`. -/
def samplePixels (width height : Nat) : List (Nat × Nat) :=
  ((sampleOffsets width).flatMap (fun x => [(x, 0), (x, height - 1)])) ++
    ((sampleOffsets height).flatMap (fun y => [(0, y), (width - 1, y)]))

/-- Fold one sampled color into the cluster list: the first existing
sample within `colorDistance < 30` (i.e. squared distance `< 30^2`) gets
its count incremented (first match wins); if none matches, a fresh sample
with count 1 is appended at the end. -/
def addSample : List ColorSample → Nat → Nat → Nat → List ColorSample
  | [], r, g, b => [⟨r, g, b, 1⟩]
  | c :: rest, r, g, b =>
    if colorDistanceSq r g b c.r c.g c.b < (30 : ℤ) ^ 2 then
      ⟨c.r, c.g, c.b, c.count + 1⟩ :: rest
    else
      c :: addSample rest r g b

/-- The cluster list accumulated by `getBackgroundColors` over all border
samples, before sorting. -/
def clusterColors (img : Raster) : List ColorSample :=
  (samplePixels img.width img.height).foldl
    (fun cs p => addSample cs (img.pix p.1 p.2).r (img.pix p.1 p.2).g (img.pix p.1 p.2).b)
    []

/-- Insert a sample in front of the first strictly-less-frequent entry.
Building block of the stable descending sort below. -/
def insertSample (a : ColorSample) : List ColorSample → List ColorSample
  | [] => [a]
  | b :: l => if b.count ≤ a.count then a :: b :: l else b :: insertSample a l

/-- Stable sort by descending `count`; ties keep insertion order. Models
the JavaScript `sort((a, b) => b.count - a.count)` (stable per ES2019). -/
def sortByCountDesc : List ColorSample → List ColorSample
  | [] => []
  | a :: l => insertSample a (sortByCountDesc l)

/-- `getBackgroundColors`: cluster the border samples, sort descending by
count, keep the first 3, and drop the counts. -/
def getBackgroundColors (img : Raster) : List RGB :=
  ((sortByCountDesc (clusterColors img)).take 3).map (fun c => ⟨c.r, c.g, c.b⟩)

/-- The red channel as an integer (`data[idx*4]`), as used by the Sobel
operator. -/
def red (img : Raster) (x y : Nat) : ℤ :=
  ((img.pix x y).r : ℤ)

/-- Horizontal Sobel gradient `gx` at `(x, y)`, over the red channel. -/
def sobelGx (img : Raster) (x y : Nat) : ℤ :=
  -(red img (x - 1) (y - 1)) + red img (x + 1) (y - 1)
    - 2 * red img (x - 1) y + 2 * red img (x + 1) y
    - red img (x - 1) (y + 1) + red img (x + 1) (y + 1)

/-- Vertical Sobel gradient `gy` at `(x, y)`, over the red channel. -/
def sobelGy (img : Raster) (x y : Nat) : ℤ :=
  -(red img (x - 1) (y - 1)) - 2 * red img x (y - 1) - red img (x + 1) (y - 1)
    + red img (x - 1) (y + 1) + 2 * red img x (y + 1) + red img (x + 1) (y + 1)

/-- `detectEdges` at one pixel: interior pixels (`1 ≤ x < width-1`,
`1 ≤ y < height-1`) are edges when the Sobel magnitude
`sqrt(gx^2+gy^2)` exceeds the threshold, i.e. `gx^2+gy^2 > threshold^2`;
every other pixel keeps the initial `false`. -/
def detectEdges (img : Raster) (threshold : Nat) (x y : Nat) : Bool :=
  if 1 ≤ x ∧ x + 1 < img.width ∧ 1 ≤ y ∧ y + 1 < img.height then
    decide ((sobelGx img x y) ^ 2 + (sobelGy img x y) ^ 2 > (threshold : ℤ) ^ 2)
  else
    false

/-- Whether a pixel color is background-like: some palette color is within
`colorDistance < tolerance`, i.e. squared distance `< tolerance^2`. The
source's loop with `break` is the first-match existential. -/
def isBackgroundPix (palette : List RGB) (tolerance : Nat) (r g b : Nat) : Bool :=
  palette.any (fun c => decide (colorDistanceSq r g b c.r c.g c.b < (tolerance : ℤ) ^ 2))

/-- The classifier stage for one pixel: background-like and not an edge
gives 0; background-like on an edge gives `Math.floor (255 * 0.3)`
(= `255 * 3 / 10` = 76); otherwise the initialized 255. -/
def classifyAlpha (palette : List RGB) (tolerance : Nat) (r g b : Nat) (edge : Bool) : Nat :=
  if isBackgroundPix palette tolerance r g b && !edge then 0
  else if isBackgroundPix palette tolerance r g b then 255 * 3 / 10
  else 255

/-- `|a - b|` over naturals. -/
def natDist (a b : Nat) : Nat :=
  (a - b) + (b - a)

/-- Squared Euclidean distance between two pixel positions
(`dx*dx + dy*dy` in the feathering loop). -/
def posDistSq (qx qy x y : Nat) : Nat :=
  natDist qx x ^ 2 + natDist qy y ^ 2

/-- Floor of the base-2 logarithm (`0` for `n ≤ 1`), driven by structural
fuel so that the kernel can evaluate it; the fuel bounds the bit length. -/
def log2Go : Nat → Nat → Nat
  | 0, _ => 0
  | fuel + 1, n => if n ≤ 1 then 0 else log2Go fuel (n / 2) + 1

/-- `⌊log₂ n⌋` for `n < 2^80` (all inputs arising here are far smaller). -/
def log2F (n : Nat) : Nat :=
  log2Go 80 n

/-- Round-to-nearest, ties-to-even, of the rational `a / b` to an
integer: the rounding mode of IEEE-754 binary64 arithmetic. -/
def rne (a b : Nat) : Nat :=
  let q := a / b
  let r := a % b
  if 2 * r < b then q
  else if b < 2 * r then q + 1
  else if q % 2 = 0 then q else q + 1

/-- Binary search (on structural fuel ≥ the bit length of `hi - lo`) for
the least `t` in `[lo, hi]` with `n ≤ t*t`, assuming `n ≤ hi*hi`. -/
def sqrtLowGo (n : Nat) : Nat → Nat → Nat → Nat
  | 0, lo, _ => lo
  | fuel + 1, lo, hi =>
    if hi ≤ lo then lo
    else
      let mid := (lo + hi) / 2
      if n ≤ mid * mid then sqrtLowGo n fuel lo mid
      else sqrtLowGo n fuel (mid + 1) hi

/-- `⌊√M⌋` for `M < 2^120`, via binary search. -/
def floorSqrtB (M : Nat) : Nat :=
  let c := sqrtLowGo M 120 0 M
  if c * c = M then c else c - 1

/-- The IEEE-754 binary64 (JavaScript number) value of `Math.sqrt dd` for
a natural `dd`, encoded in fixed point as an integer multiple of `2^-58`
(every double in the magnitude range `[2^-6, 2^9]` arising in the
feathering arithmetic is such a multiple).  `E = ⌊log₂ √dd⌋`, and the
53-bit significand is the nearest integer to `√dd · 2^(52-E)`
(= `√(dd · 2^(104-2E))`; a tie is impossible since that square root is
irrational unless exact). -/
def fpSqrt (dd : Nat) : Nat :=
  if dd = 0 then 0
  else
    let E := log2F dd / 2
    let M := dd * 2 ^ (104 - 2 * E)
    let t := floorSqrtB M
    let n := if M ≤ t * t + t then t else t + 1
    n * 2 ^ (E + 6)

/-- The IEEE-754 binary64 value nearest to the rational `a / b`
(round-to-nearest, ties-to-even), encoded as an integer multiple of
`2^-58`; faithful for results in the magnitude range `[2^-6, 2^9]`, which
covers every quotient, difference and product in the feathering
arithmetic.  `E64 - 64 = ⌊log₂ (a/b)⌋` picks the binade, and the value is
rounded to 53 significant bits there. -/
def rnd53 (a b : Nat) : Nat :=
  if a = 0 then 0
  else
    let E64 := log2F (a * 2 ^ 64 / b)
    let n := rne (a * 2 ^ (116 - E64)) b
    n * 2 ^ (E64 - 58)

/-- The feathering candidate `Math.floor (255 * (1 - Math.sqrt dd /
featherRadius))` for a neighbor at squared offset distance `dd` from a
zero-alpha source, computed with the source's IEEE-754 binary64
semantics, step by step: the correctly rounded `Math.sqrt dd`, the
rounded quotient by `R`, the rounded subtraction from 1, the rounded
product with 255 (all in `2^-58` fixed point), then the exact floor.
The double rounding is observable: at `dd = 16`, `R = 5` the doubles
give 50 where the exact real floor is 51 (`featherCand_fp_divergence`
below), so an exact-real embedding would diverge from the program. -/
def featherCand (dd R : Nat) : Nat :=
  let s := fpSqrt dd
  let q := rnd53 s (R * 2 ^ 58)
  let f := rnd53 (2 ^ 58 - q) (2 ^ 58)
  let p := rnd53 (255 * f) (2 ^ 58)
  p / 2 ^ 58

/-- All pixel coordinates of a `width × height` image, as scanned by the
feathering pass (column-major order is irrelevant: the min-accumulation
is order-independent). -/
def allCoords (width height : Nat) : List (Nat × Nat) :=
  (List.range width).flatMap (fun qx => (List.range height).map (fun qy => (qx, qy)))

/-- The feathering pass, viewed per target pixel.  With `R = 0` the stage
does not run.  Otherwise the source iterates every interior zero-alpha
pixel `q` (`R ≤ qx < width - R`, `R ≤ qy < height - R`, `raw q = 0`) and
every offset `(dx, dy) ∈ [-R, R]^2` with `sqrt(dx^2+dy^2) ≤ R`, and
lowers the output at the neighbor `q + (dx, dy)` (when its RAW alpha is
positive) to `min current (featherCand dd R)`.  Re-read target-wise, the
output at `(x, y)` is the min of `raw x y` and the candidates of every
qualifying source `q` with `natDist qx x ≤ R`, `natDist qy y ≤ R` and
squared distance `≤ R^2`; the min over all updates is order-independent,
so a fold over all coordinates computes exactly the source's result.
`featherUpd` is the single-source update of that fold. -/
def featherUpd (raw : Nat → Nat → Nat) (width height R x y : Nat)
    (acc : Nat) (q : Nat × Nat) : Nat :=
  if (R ≤ q.1 ∧ q.1 + R < width ∧ R ≤ q.2 ∧ q.2 + R < height) ∧
      raw q.1 q.2 = 0 ∧ 0 < raw x y ∧
      natDist q.1 x ≤ R ∧ natDist q.2 y ≤ R ∧
      posDistSq q.1 q.2 x y ≤ R ^ 2 then
    min acc (featherCand (posDistSq q.1 q.2 x y) R)
  else acc

def featherAlpha (raw : Nat → Nat → Nat) (width height R : Nat) (x y : Nat) : Nat :=
  if R = 0 then raw x y
  else (allCoords width height).foldl (featherUpd raw width height R x y) (raw x y)

/-- The 10×10 test raster of the end-to-end scenario: uniform blue
`(0,0,255,255)` on the outer 1-pixel ring, uniform red `(255,0,0,255)`
on the 8×8 interior. -/
def img10 : Raster :=
  { width := 10
    height := 10
    pix := fun x y =>
      if x = 0 ∨ x = 9 ∨ y = 0 ∨ y = 9 then ⟨0, 0, 255, 255⟩ else ⟨255, 0, 0, 255⟩ }

/-- The end-to-end scenario settings: tolerance 30, edge sensitivity 1
(Sobel threshold 10), feathering 0. -/
def s10 : ProcessingSettings :=
  ⟨30, 1, 0⟩

/-- A concrete 5×5 alpha mask: 0 at `(2,2)`, 10 at `(3,2)`, 255 elsewhere. -/
def m3 : Nat → Nat → Nat :=
  fun x y => if x = 2 ∧ y = 2 then 0 else if x = 3 ∧ y = 2 then 10 else 255

/-- The everywhere-opaque alpha mask. -/
def mOpaque : Nat → Nat → Nat :=
  fun _ _ => 255

/-- A uniform 3×3 gray raster. -/
def u3 : Raster :=
  { width := 3, height := 3, pix := fun _ _ => ⟨7, 7, 7, 255⟩ }

/-- A uniform 1×1 raster of color `(5,6,7)`. -/
def u1 : Raster :=
  { width := 1, height := 1, pix := fun _ _ => ⟨5, 6, 7, 9⟩ }

/-- The raw alpha mask after the classifier stage of `removeBackground`:
palette from the border sampler, edges from Sobel at threshold
`edgeDetection * 10`, classifier per pixel. -/
def rawMask (img : Raster) (s : ProcessingSettings) (x y : Nat) : Nat :=
  classifyAlpha (getBackgroundColors img) s.colorTolerance
    (img.pix x y).r (img.pix x y).g (img.pix x y).b
    (detectEdges img (s.edgeDetection * 10) x y)

/-- The final alpha mask: the raw mask after the feathering pass. -/
def finalMask (img : Raster) (s : ProcessingSettings) (x y : Nat) : Nat :=
  featherAlpha (rawMask img s) img.width img.height s.feathering x y

/-- The whole pipeline `removeBackground`: same dimensions, RGB copied
from the input, alpha replaced by the final mask (the source's in-place
`data[i*4+3] = alphaChannel[i]` writes only channel 3). -/
def removeBackground (img : Raster) (s : ProcessingSettings) : Raster :=
  { width := img.width
    height := img.height
    pix := fun x y =>
      { r := (img.pix x y).r
        g := (img.pix x y).g
        b := (img.pix x y).b
        a := finalMask img s x y } }

/-! ## Helper lemmas -/

lemma foldl_dec_le {β : Type} (upd : Nat → β → Nat) (h : ∀ a b, upd a b ≤ a)
    (l : List β) : ∀ a : Nat, l.foldl upd a ≤ a := by
  induction l with
  | nil => intro a; exact le_refl a
  | cons b l ih => intro a; exact le_trans (ih (upd a b)) (h a b)

lemma foldl_eq_of_id {β : Type} (upd : Nat → β → Nat) :
    ∀ l : List β, (∀ (a : Nat), ∀ b ∈ l, upd a b = a) → ∀ a : Nat, l.foldl upd a = a := by
  intro l
  induction l with
  | nil => intro _ a; rfl
  | cons c l ih =>
    intro h a
    rw [List.foldl_cons, h a c (List.mem_cons_self c l)]
    exact ih (fun a b hb => h a b (List.mem_cons_of_mem c hb)) a

lemma foldl_le_of_mem {β : Type} (upd : Nat → β → Nat) (h : ∀ a b, upd a b ≤ a)
    (v : Nat) (b : β) (hb : ∀ a : Nat, upd a b ≤ v) :
    ∀ l : List β, b ∈ l → ∀ a : Nat, l.foldl upd a ≤ v := by
  intro l
  induction l with
  | nil => intro hmem; cases hmem
  | cons c l ih =>
    intro hmem a
    rcases List.mem_cons.1 hmem with heq | hmem2
    · subst heq
      exact le_trans (foldl_dec_le upd h l (upd a b)) (hb a)
    · exact ih hmem2 (upd a c)

lemma featherUpd_le (raw : Nat → Nat → Nat) (width height R x y : Nat)
    (a : Nat) (q : Nat × Nat) : featherUpd raw width height R x y a q ≤ a := by
  unfold featherUpd
  split
  · exact min_le_left _ _
  · exact le_refl a

lemma featherAlpha_le (raw : Nat → Nat → Nat) (width height R x y : Nat) :
    featherAlpha raw width height R x y ≤ raw x y := by
  unfold featherAlpha
  split
  · exact le_refl _
  · exact foldl_dec_le _ (featherUpd_le raw width height R x y) _ (raw x y)

lemma classifyAlpha_cases (palette : List RGB) (tolerance r g b : Nat) (edge : Bool) :
    classifyAlpha palette tolerance r g b edge = 0 ∨
      classifyAlpha palette tolerance r g b edge = 76 ∨
      classifyAlpha palette tolerance r g b edge = 255 := by
  unfold classifyAlpha
  split
  · exact Or.inl rfl
  · split
    · exact Or.inr (Or.inl (by norm_num))
    · exact Or.inr (Or.inr rfl)

/-! ## Claims -/

/-- C6: Feathering with radius R = 0 is the identity transform: for every
raw AlphaMask the output mask equals the input mask at every pixel. -/
theorem c6_feather_radius_zero_id :
    ∀ (raw : Nat → Nat → Nat) (width height x y : Nat),
      featherAlpha raw width height 0 x y = raw x y := by
  intro raw width height x y
  unfold featherAlpha
  rw [if_pos rfl]

/-- C9: Feathering never increases alpha: for every raw AlphaMask and
every radius, the feathered alpha at every pixel is at most the raw
alpha there; in particular a raw-zero pixel stays at 0. -/
theorem c9_feather_monotone_le :
    ∀ (raw : Nat → Nat → Nat) (width height R x y : Nat),
      featherAlpha raw width height R x y ≤ raw x y ∧
        (raw x y = 0 → featherAlpha raw width height R x y = 0) :=
  fun raw width height R x y =>
    ⟨featherAlpha_le raw width height R x y,
      fun h0 => Nat.le_zero.1 (h0 ▸ featherAlpha_le raw width height R x y)⟩

/-- Witness for C9 at the concrete mask `m3`, pixel (2,2) whose raw alpha
is 0. -/
theorem c9_feather_monotone_le_witness :
    featherAlpha m3 5 5 2 2 2 ≤ m3 2 2 ∧ featherAlpha m3 5 5 2 2 2 = 0 :=
  ⟨(c9_feather_monotone_le m3 5 5 2 2 2).1,
    (c9_feather_monotone_le m3 5 5 2 2 2).2 (by decide)⟩

/-- C10: the raw mask takes only the values 0, 76 and 255, and the final
(feathered) mask stays within [0, 255]. -/
theorem c10_mask_value_range :
    ∀ (img : Raster) (s : ProcessingSettings) (x y : Nat),
      (rawMask img s x y = 0 ∨ rawMask img s x y = 76 ∨ rawMask img s x y = 255) ∧
        finalMask img s x y ≤ 255 := by
  intro img s x y
  have hcases := classifyAlpha_cases (getBackgroundColors img) s.colorTolerance
    (img.pix x y).r (img.pix x y).g (img.pix x y).b
    (detectEdges img (s.edgeDetection * 10) x y)
  have hraw : rawMask img s x y = 0 ∨ rawMask img s x y = 76 ∨ rawMask img s x y = 255 := hcases
  refine ⟨hraw, ?_⟩
  have hle : finalMask img s x y ≤ rawMask img s x y :=
    featherAlpha_le (rawMask img s) img.width img.height s.feathering x y
  rcases hraw with h | h | h <;> omega

/-- C7: the pipeline preserves dimensions and the R, G, B channels of
every pixel; only alpha is replaced by the final mask. -/
theorem c7_frame_rgb_preserved :
    ∀ (img : Raster) (s : ProcessingSettings),
      10 ≤ s.colorTolerance → s.colorTolerance ≤ 100 →
      1 ≤ s.edgeDetection → s.edgeDetection ≤ 10 →
      s.feathering ≤ 5 →
      (removeBackground img s).width = img.width ∧
        (removeBackground img s).height = img.height ∧
        ∀ x y : Nat,
          ((removeBackground img s).pix x y).r = (img.pix x y).r ∧
            ((removeBackground img s).pix x y).g = (img.pix x y).g ∧
            ((removeBackground img s).pix x y).b = (img.pix x y).b ∧
            ((removeBackground img s).pix x y).a = finalMask img s x y :=
  fun _ _ _ _ _ _ _ => ⟨rfl, rfl, fun _ _ => ⟨rfl, rfl, rfl, rfl⟩⟩

/-- Witness for C7 at the end-to-end raster and settings. -/
theorem c7_frame_rgb_preserved_witness :
    (removeBackground img10 s10).width = img10.width ∧
      ((removeBackground img10 s10).pix 2 2).r = (img10.pix 2 2).r :=
  ⟨(c7_frame_rgb_preserved img10 s10 (by decide) (by decide) (by decide)
      (by decide) (by decide)).1,
    ((c7_frame_rgb_preserved img10 s10 (by decide) (by decide) (by decide)
      (by decide) (by decide)).2.2 2 2).1⟩

/-- C8: the pipeline is deterministic: equal rasters and equal settings
produce an identical palette and an identical output raster. -/
theorem c8_deterministic :
    ∀ (img1 img2 : Raster) (s1 s2 : ProcessingSettings),
      img1 = img2 → s1 = s2 →
      getBackgroundColors img1 = getBackgroundColors img2 ∧
        removeBackground img1 s1 = removeBackground img2 s2 := by
  intro img1 img2 s1 s2 h1 h2
  subst h1
  subst h2
  exact ⟨rfl, rfl⟩

/-- Witness for C8 at the end-to-end raster and settings. -/
theorem c8_deterministic_witness :
    getBackgroundColors img10 = getBackgroundColors img10 ∧
      removeBackground img10 s10 = removeBackground img10 s10 :=
  c8_deterministic img10 img10 s10 s10 rfl rfl

lemma isBackgroundPix_iff (palette : List RGB) (tolerance r g b : Nat) :
    isBackgroundPix palette tolerance r g b = true ↔
      ∃ c ∈ palette, colorDistanceSq r g b c.r c.g c.b < (tolerance : ℤ) ^ 2 := by
  simp [isBackgroundPix, List.any_eq_true]

/-- C2: the classifier gives alpha 0 to a background-like non-edge pixel,
alpha `floor (255*0.3) = 76` to a background-like edge pixel, and
alpha 255 otherwise ("background-like" being: the minimum palette
distance is below the tolerance, i.e. some palette color is within it). -/
theorem c2_classifier_values :
    ∀ (palette : List RGB) (tolerance r g b : Nat) (edge : Bool),
      ((∃ c ∈ palette, colorDistanceSq r g b c.r c.g c.b < (tolerance : ℤ) ^ 2) →
        edge = false → classifyAlpha palette tolerance r g b edge = 0) ∧
      ((∃ c ∈ palette, colorDistanceSq r g b c.r c.g c.b < (tolerance : ℤ) ^ 2) →
        edge = true → classifyAlpha palette tolerance r g b edge = 76) ∧
      ((∀ c ∈ palette, ¬ colorDistanceSq r g b c.r c.g c.b < (tolerance : ℤ) ^ 2) →
        classifyAlpha palette tolerance r g b edge = 255) := by
  intro palette tolerance r g b edge
  refine ⟨?_, ?_, ?_⟩
  · intro hbg hedge
    have h := (isBackgroundPix_iff palette tolerance r g b).2 hbg
    subst hedge
    simp [classifyAlpha, h]
  · intro hbg hedge
    have h := (isBackgroundPix_iff palette tolerance r g b).2 hbg
    subst hedge
    simp [classifyAlpha, h]
  · intro hfar
    have h : isBackgroundPix palette tolerance r g b = false := by
      rw [Bool.eq_false_iff]
      intro htrue
      obtain ⟨c, hc, hlt⟩ := (isBackgroundPix_iff palette tolerance r g b).1 htrue
      exact hfar c hc hlt
    simp [classifyAlpha, h]

/-- Witness for C2: pure blue against the palette `[(0,0,255)]` at
tolerance 30 is background-like; off an edge it is removed, on an edge it
is set to 76; pure red is farther than 30 and keeps 255. -/
theorem c2_classifier_values_witness :
    classifyAlpha [⟨0, 0, 255⟩] 30 0 0 255 false = 0 ∧
      classifyAlpha [⟨0, 0, 255⟩] 30 0 0 255 true = 76 ∧
      classifyAlpha [⟨0, 0, 255⟩] 30 255 0 0 false = 255 :=
  ⟨(c2_classifier_values [⟨0, 0, 255⟩] 30 0 0 255 false).1
      ⟨⟨0, 0, 255⟩, by simp, by decide⟩ rfl,
    (c2_classifier_values [⟨0, 0, 255⟩] 30 0 0 255 true).2.1
      ⟨⟨0, 0, 255⟩, by simp, by decide⟩ rfl,
    (c2_classifier_values [⟨0, 0, 255⟩] 30 255 0 0 false).2.2
      (by intro c hc; simp at hc; subst hc; decide)⟩

lemma sobelGx_uniform (img : Raster) (x y : Nat)
    (huni : ∀ a, a < img.width → ∀ b, b < img.height → ∀ a2, a2 < img.width →
      ∀ b2, b2 < img.height → img.pix a b = img.pix a2 b2)
    (h1 : 1 ≤ x) (h2 : x + 1 < img.width) (h3 : 1 ≤ y) (h4 : y + 1 < img.height) :
    sobelGx img x y = 0 := by
  have e : ∀ a b, a < img.width → b < img.height → img.pix a b = img.pix x y :=
    fun a b ha hb => huni a ha b hb x (by omega) y (by omega)
  unfold sobelGx red
  rw [e (x - 1) (y - 1) (by omega) (by omega), e (x + 1) (y - 1) h2 (by omega),
    e (x - 1) y (by omega) (by omega), e (x + 1) y h2 (by omega),
    e (x - 1) (y + 1) (by omega) h4, e (x + 1) (y + 1) h2 h4]
  ring

lemma sobelGy_uniform (img : Raster) (x y : Nat)
    (huni : ∀ a, a < img.width → ∀ b, b < img.height → ∀ a2, a2 < img.width →
      ∀ b2, b2 < img.height → img.pix a b = img.pix a2 b2)
    (h1 : 1 ≤ x) (h2 : x + 1 < img.width) (h3 : 1 ≤ y) (h4 : y + 1 < img.height) :
    sobelGy img x y = 0 := by
  have e : ∀ a b, a < img.width → b < img.height → img.pix a b = img.pix x y :=
    fun a b ha hb => huni a ha b hb x (by omega) y (by omega)
  unfold sobelGy red
  rw [e (x - 1) (y - 1) (by omega) (by omega), e x (y - 1) (by omega) (by omega),
    e (x + 1) (y - 1) h2 (by omega), e (x - 1) (y + 1) (by omega) h4,
    e x (y + 1) (by omega) h4, e (x + 1) (y + 1) h2 h4]
  ring

/-- C5: a uniform-color raster yields an all-false EdgeMask, and border
pixels (x=0, y=0, x=W-1 or y=H-1) are never edges for any raster and
threshold. -/
theorem c5_edge_detector :
    (∀ (img : Raster) (threshold : Nat),
      (∀ a, a < img.width → ∀ b, b < img.height → ∀ a2, a2 < img.width →
        ∀ b2, b2 < img.height → img.pix a b = img.pix a2 b2) →
      ∀ x y : Nat, detectEdges img threshold x y = false) ∧
    (∀ (img : Raster) (threshold : Nat) (x y : Nat),
      x = 0 ∨ y = 0 ∨ x = img.width - 1 ∨ y = img.height - 1 →
      detectEdges img threshold x y = false) := by
  constructor
  · intro img threshold huni x y
    unfold detectEdges
    split
    · next hc =>
      obtain ⟨h1, h2, h3, h4⟩ := hc
      rw [sobelGx_uniform img x y huni h1 h2 h3 h4,
        sobelGy_uniform img x y huni h1 h2 h3 h4]
      simp only [decide_eq_false_iff_not, gt_iff_lt, not_lt]
      positivity
    · rfl
  · intro img threshold x y hb
    unfold detectEdges
    rw [if_neg]
    rintro ⟨h1, h2, h3, h4⟩
    rcases hb with rfl | rfl | rfl | rfl <;> omega

/-- Witness for C5: the uniform 3×3 raster has no edge at its center, and
the 10×10 test raster has no edge at the border pixel (0,5). -/
theorem c5_edge_detector_witness :
    detectEdges u3 0 1 1 = false ∧ detectEdges img10 10 0 5 = false :=
  ⟨c5_edge_detector.1 u3 0 (by decide) 1 1,
    c5_edge_detector.2 img10 10 0 5 (Or.inl rfl)⟩

lemma length_insertSample (a : ColorSample) :
    ∀ l : List ColorSample, (insertSample a l).length = l.length + 1 := by
  intro l
  induction l with
  | nil => rfl
  | cons b l ih =>
    unfold insertSample
    split
    · simp
    · simp [ih]

lemma length_sortByCountDesc :
    ∀ l : List ColorSample, (sortByCountDesc l).length = l.length := by
  intro l
  induction l with
  | nil => rfl
  | cons a l ih =>
    unfold sortByCountDesc
    rw [length_insertSample a (sortByCountDesc l), ih, List.length_cons]

lemma colorDistanceSq_self (r g b : Nat) : colorDistanceSq r g b r g b = 0 := by
  simp [colorDistanceSq]

lemma addSample_self (r g b k : Nat) (rest : List ColorSample) :
    addSample (⟨r, g, b, k⟩ :: rest) r g b = ⟨r, g, b, k + 1⟩ :: rest := by
  unfold addSample
  rw [if_pos]
  rw [colorDistanceSq_self]
  norm_num

lemma foldl_addSample_uniform (img : Raster) (r g b : Nat) :
    ∀ ps : List (Nat × Nat),
      (∀ p ∈ ps, (img.pix p.1 p.2).r = r ∧ (img.pix p.1 p.2).g = g ∧ (img.pix p.1 p.2).b = b) →
      ∀ k : Nat,
        ps.foldl
          (fun cs p => addSample cs (img.pix p.1 p.2).r (img.pix p.1 p.2).g (img.pix p.1 p.2).b)
          [⟨r, g, b, k⟩] = [⟨r, g, b, k + ps.length⟩] := by
  intro ps
  induction ps with
  | nil => intro _ k; rfl
  | cons p rest ih =>
    intro h k
    obtain ⟨hr, hg, hb⟩ := h p (List.mem_cons_self p rest)
    rw [List.foldl_cons, hr, hg, hb, addSample_self,
      ih (fun q hq => h q (List.mem_cons_of_mem p hq)) (k + 1)]
    have : k + 1 + rest.length = k + (p :: rest).length := by
      rw [List.length_cons]; omega
    rw [this]

lemma mem_sampleOffsets (n v : Nat) (hv : v ∈ sampleOffsets n) : v < n := by
  have := (List.mem_filter.1 hv).1
  exact List.mem_range.1 this

lemma zero_mem_sampleOffsets (n : Nat) (h : 1 ≤ n) : 0 ∈ sampleOffsets n := by
  refine List.mem_filter.2 ⟨List.mem_range.2 h, ?_⟩
  decide

lemma origin_mem_samplePixels (w h : Nat) (hw : 1 ≤ w) : (0, 0) ∈ samplePixels w h := by
  unfold samplePixels
  refine List.mem_append_left _ ?_
  refine List.mem_flatMap.2 ⟨0, zero_mem_sampleOffsets w hw, ?_⟩
  simp

lemma mem_samplePixels_border (w h : Nat) (hw : 1 ≤ w) (hh : 1 ≤ h) (p : Nat × Nat)
    (hp : p ∈ samplePixels w h) :
    p.1 < w ∧ p.2 < h ∧ (p.1 = 0 ∨ p.1 = w - 1 ∨ p.2 = 0 ∨ p.2 = h - 1) := by
  unfold samplePixels at hp
  rcases List.mem_append.1 hp with hp | hp
  · obtain ⟨x, hx, hmem⟩ := List.mem_flatMap.1 hp
    have hxw : x < w := mem_sampleOffsets w x hx
    simp only [List.mem_cons, List.mem_singleton, List.not_mem_nil, or_false] at hmem
    rcases hmem with rfl | rfl
    · exact ⟨hxw, hh, Or.inr (Or.inr (Or.inl rfl))⟩
    · exact ⟨hxw, by omega, Or.inr (Or.inr (Or.inr rfl))⟩
  · obtain ⟨y, hy, hmem⟩ := List.mem_flatMap.1 hp
    have hyh : y < h := mem_sampleOffsets h y hy
    simp only [List.mem_cons, List.mem_singleton, List.not_mem_nil, or_false] at hmem
    rcases hmem with rfl | rfl
    · exact ⟨hw, hyh, Or.inl rfl⟩
    · exact ⟨by omega, hyh, Or.inr (Or.inl rfl)⟩

/-- C4: the palette length is `min 3` of the number of clusters built by
the distance-30 first-match-wins clustering; and an image whose whole
border has one uniform color yields the one-entry palette of exactly that
color. -/
theorem c4_background_sampler :
    ∀ img : Raster,
      (getBackgroundColors img).length = min 3 (clusterColors img).length ∧
      (∀ r g b : Nat, 1 ≤ img.width → 1 ≤ img.height →
        (∀ x, x < img.width → ∀ y, y < img.height →
          (x = 0 ∨ x = img.width - 1 ∨ y = 0 ∨ y = img.height - 1) →
          (img.pix x y).r = r ∧ (img.pix x y).g = g ∧ (img.pix x y).b = b) →
        getBackgroundColors img = [⟨r, g, b⟩]) := by
  intro img
  constructor
  · unfold getBackgroundColors
    rw [List.length_map, List.length_take, length_sortByCountDesc]
  · intro r g b hw hh huni
    have hsamp : ∀ p ∈ samplePixels img.width img.height,
        (img.pix p.1 p.2).r = r ∧ (img.pix p.1 p.2).g = g ∧ (img.pix p.1 p.2).b = b := by
      intro p hp
      obtain ⟨h1, h2, h3⟩ := mem_samplePixels_border img.width img.height hw hh p hp
      exact huni p.1 h1 p.2 h2 h3
    have hcl : ∃ n : Nat, clusterColors img = [⟨r, g, b, n⟩] := by
      unfold clusterColors
      rcases hps : samplePixels img.width img.height with _ | ⟨p, rest⟩
      · exfalso
        have := origin_mem_samplePixels img.width img.height hw
        rw [hps] at this
        cases this
      · rw [hps] at hsamp
        obtain ⟨hr, hg, hb⟩ := hsamp p (List.mem_cons_self p rest)
        rw [List.foldl_cons]
        have hfirst : addSample [] (img.pix p.1 p.2).r (img.pix p.1 p.2).g (img.pix p.1 p.2).b
            = [⟨r, g, b, 1⟩] := by
          rw [hr, hg, hb]; rfl
        rw [hfirst,
          foldl_addSample_uniform img r g b rest
            (fun q hq => hsamp q (List.mem_cons_of_mem p hq)) 1]
        exact ⟨1 + rest.length, rfl⟩
    obtain ⟨n, hn⟩ := hcl
    unfold getBackgroundColors
    rw [hn]
    rfl

/-- Witness for C4 at the uniform 1×1 raster `u1` of color (5,6,7). -/
theorem c4_background_sampler_witness :
    getBackgroundColors u1 = [⟨5, 6, 7⟩] ∧
      (getBackgroundColors u1).length = min 3 (clusterColors u1).length :=
  ⟨(c4_background_sampler u1).2 5 6 7 (by decide) (by decide)
      (by intro x hx y hy hb; constructor; rfl; constructor; rfl; rfl),
    (c4_background_sampler u1).1⟩

/-- C1: end-to-end on the 10×10 blue-ring/red-interior raster with
tolerance 30, edge sensitivity 1 (Sobel threshold 10) and feathering 0:
every border-ring pixel not flagged by the red-channel Sobel detector
gets output alpha 0 (the detector flags no ring pixel, as they are image
border), and every interior pixel keeps alpha 255. -/
theorem c1_end_to_end :
    (∀ x, x < 10 → ∀ y, y < 10 →
      (x = 0 ∨ x = 9 ∨ y = 0 ∨ y = 9) →
      detectEdges img10 (s10.edgeDetection * 10) x y = false →
      ((removeBackground img10 s10).pix x y).a = 0) ∧
    (∀ x, x < 10 → ∀ y, y < 10 →
      (1 ≤ x ∧ x ≤ 8 ∧ 1 ≤ y ∧ y ≤ 8) →
      ((removeBackground img10 s10).pix x y).a = 255) :=
  ⟨by decide, by decide⟩

/-- Witness for C1 at the ring pixel (0,0) and the interior pixel (5,5). -/
theorem c1_end_to_end_witness :
    ((removeBackground img10 s10).pix 0 0).a = 0 ∧
      ((removeBackground img10 s10).pix 5 5).a = 255 :=
  ⟨c1_end_to_end.1 0 (by decide) 0 (by decide) (Or.inl rfl) (by decide),
    c1_end_to_end.2 5 (by decide) 5 (by decide) (by decide)⟩

lemma mem_allCoords (w h qx qy : Nat) (hx : qx < w) (hy : qy < h) :
    (qx, qy) ∈ allCoords w h := by
  unfold allCoords
  exact List.mem_flatMap.2 ⟨qx, List.mem_range.2 hx,
    List.mem_map.2 ⟨qy, List.mem_range.2 hy, rfl⟩⟩

set_option maxRecDepth 1000000 in
lemma featherCand_antitone_check :
    ((List.range 6).all (fun R =>
      (List.range 26).all (fun d2 =>
        (List.range 26).all (fun d1 =>
          decide (1 ≤ R → d2 ≤ R ^ 2 → d1 ≤ d2 →
            featherCand d2 R ≤ featherCand d1 R))))) = true := by
  decide

/-- Over the program's radius range (the feathering slider allows 1–5 for
an active pass) and squared distances within `R^2` (the loop's
`distance <= featherRadius` reach), the double-precision candidate is
non-increasing in the squared distance.  Kernel-checked exhaustively via
`featherCand_antitone_check`. -/
lemma featherCand_antitone_reachable :
    ∀ R d1 d2 : Nat, 1 ≤ R → R ≤ 5 → d1 ≤ d2 → d2 ≤ R ^ 2 →
      featherCand d2 R ≤ featherCand d1 R := by
  intro R d1 d2 h1 h5 h12 h2R
  have hsq : R ^ 2 ≤ 25 := by
    have h := Nat.pow_le_pow_left h5 2
    omega
  have hb := featherCand_antitone_check
  simp only [List.all_eq_true, List.mem_range, decide_eq_true_eq] at hb
  exact hb R (by omega) d2 (by omega) d1 (by omega) h1 h2R h12

set_option maxRecDepth 1000000 in
/-- C3 (counterexample): pointwise monotonicity outward fails.  In the
5×5 mask `m3` with the single interior zero-alpha source (2,2) and
radius 2, the pixel (3,2) at squared distance 1 feathers to 10 (its raw
value) while the farther pixel (3,3) at squared distance 2 feathers to
74: moving outward the alpha strictly increases. -/
theorem c3_feather_monotone_counterexample :
    m3 2 2 = 0 ∧
      (2 ≤ 2 ∧ 2 + 2 < 5 ∧ 2 ≤ 2 ∧ 2 + 2 < 5) ∧
      posDistSq 2 2 3 2 ≤ posDistSq 2 2 3 3 ∧
      posDistSq 2 2 3 3 ≤ 2 ^ 2 ∧
      featherAlpha m3 5 5 2 3 2 < featherAlpha m3 5 5 2 3 3 := by
  decide

/-- C3 (amended): with radius R > 0, (i) the feathered alpha of any pixel
within Euclidean distance R of an interior zero-alpha source is at most
the source's candidate `featherCand` (the program's double-precision
evaluation of `floor (255*(1 - d/R))`); (ii) over the program's radius
range (slider 1–5) and distances within R, that per-source candidate is
non-increasing as the squared distance grows, so the bound falls off
moving outward; and (iii) every pixel farther than distance R from every
interior zero-alpha source keeps its raw alpha unchanged. -/
theorem c3_feather_falloff :
    (∀ (raw : Nat → Nat → Nat) (width height R x y qx qy : Nat),
      0 < R →
      (R ≤ qx ∧ qx + R < width ∧ R ≤ qy ∧ qy + R < height) →
      raw qx qy = 0 →
      natDist qx x ≤ R → natDist qy y ≤ R →
      posDistSq qx qy x y ≤ R ^ 2 →
      featherAlpha raw width height R x y ≤ featherCand (posDistSq qx qy x y) R) ∧
    (∀ R d1 d2 : Nat, 1 ≤ R → R ≤ 5 → d1 ≤ d2 → d2 ≤ R ^ 2 →
      featherCand d2 R ≤ featherCand d1 R) ∧
    (∀ (raw : Nat → Nat → Nat) (width height R x y : Nat),
      0 < R →
      (∀ qx qy : Nat,
        (R ≤ qx ∧ qx + R < width ∧ R ≤ qy ∧ qy + R < height) →
        raw qx qy = 0 → R ^ 2 < posDistSq qx qy x y) →
      featherAlpha raw width height R x y = raw x y) := by
  refine ⟨?_, ?_, ?_⟩
  · intro raw width height R x y qx qy hR hint h0 hdx hdy hdd
    unfold featherAlpha
    rw [if_neg (by omega : ¬ R = 0)]
    by_cases hz : raw x y = 0
    · have hle := foldl_dec_le (featherUpd raw width height R x y)
        (featherUpd_le raw width height R x y) (allCoords width height) (raw x y)
      omega
    · refine foldl_le_of_mem (featherUpd raw width height R x y)
        (featherUpd_le raw width height R x y)
        (featherCand (posDistSq qx qy x y) R) (qx, qy) ?_
        (allCoords width height) (mem_allCoords width height qx qy (by omega) (by omega))
        (raw x y)
      intro a
      unfold featherUpd
      rw [if_pos ⟨hint, h0, Nat.pos_of_ne_zero hz, hdx, hdy, hdd⟩]
      exact min_le_right _ _
  · exact fun R d1 d2 h1 h5 h12 h2R => featherCand_antitone_reachable R d1 d2 h1 h5 h12 h2R
  · intro raw width height R x y hR hfar
    unfold featherAlpha
    rw [if_neg (by omega : ¬ R = 0)]
    apply foldl_eq_of_id
    intro a q _
    unfold featherUpd
    rw [if_neg]
    rintro ⟨hint, h0, hpos, hdx, hdy, hdd⟩
    exact absurd hdd (not_le.2 (hfar q.1 q.2 hint h0))

/-- Witness for C3 (amended): parts (i) and (ii) at the mask `m3`, source
(2,2), radius 2; part (iii) at the all-opaque mask. -/
theorem c3_feather_falloff_witness :
    featherAlpha m3 5 5 2 3 3 ≤ featherCand (posDistSq 2 2 3 3) 2 ∧
      featherCand 2 2 ≤ featherCand 1 2 ∧
      featherAlpha mOpaque 5 5 2 3 3 = mOpaque 3 3 :=
  ⟨c3_feather_falloff.1 m3 5 5 2 3 3 2 2 (by decide) (by decide) (by decide)
      (by decide) (by decide) (by decide),
    c3_feather_falloff.2.1 2 1 2 (by decide) (by decide) (by decide) (by decide),
    c3_feather_falloff.2.2 mOpaque 5 5 2 3 3 (by decide)
      (fun qx qy _ h0 => absurd h0 (by simp [mOpaque]))⟩

/-! ## Fidelity bridges: the integer embedding matches the real-valued
source formulas -/

/-- `colorDistance < t` in the source (a real square root against a
positive threshold) is exactly the squared comparison used throughout the
embedding. -/
lemma colorDistance_lt_iff (r1 g1 b1 r2 g2 b2 t : Nat) (ht : 0 < t) :
    Real.sqrt ((colorDistanceSq r1 g1 b1 r2 g2 b2 : ℤ) : ℝ) < (t : ℝ) ↔
      colorDistanceSq r1 g1 b1 r2 g2 b2 < (t : ℤ) ^ 2 := by
  rw [Real.sqrt_lt' (by exact_mod_cast ht)]
  constructor <;> intro h <;> exact_mod_cast h

/-- `magnitude > threshold` in `detectEdges` (a real square root against a
non-negative threshold) is exactly the squared comparison used in the
embedding. -/
lemma sobelMagnitude_gt_iff (img : Raster) (t x y : Nat) :
    (t : ℝ) < Real.sqrt ((sobelGx img x y ^ 2 + sobelGy img x y ^ 2 : ℤ) : ℝ) ↔
      (t : ℤ) ^ 2 < sobelGx img x y ^ 2 + sobelGy img x y ^ 2 := by
  rw [Real.lt_sqrt (by positivity)]
  constructor <;> intro h <;> exact_mod_cast h

set_option maxRecDepth 1000000 in
/-- The floating-point rounding in the feathering candidate is
observable: at squared distance 16 and radius 5 (reachable, e.g. offset
(±4, 0) at the slider-maximum radius) the binary64 evaluation modeled by
`featherCand` yields 50 (the quotient 4/5 rounds up to the nearest
double, so `255 * (1 - fl(4/5))` lands just below 51), while the exact
real `⌊255 * (1 - √16 / 5)⌋` is 51.  An exact-real embedding of the
candidate would therefore diverge from the program here. -/
lemma featherCand_fp_divergence :
    featherCand 16 5 = 50 ∧ ⌊(255 : ℝ) * (1 - Real.sqrt 16 / 5)⌋ = 51 := by
  constructor
  · decide
  · have h4 : Real.sqrt 16 = 4 := by
      rw [show (16 : ℝ) = 4 ^ 2 by norm_num, Real.sqrt_sq (by norm_num)]
    rw [h4, show (255 : ℝ) * (1 - 4 / 5) = ((51 : ℤ) : ℝ) by norm_num]
    exact Int.floor_intCast 51
